import Mathlib

/-!
# Verification of the RealEstate-ChatBot analytics core

A shallow embedding of the query-interpretation and analytics pipeline of
`api/utils.py`: entity extraction (`extract_year_range`, `detect_metric`,
`extract_areas_from_message`), dataset access and filtering (`get_dataset`,
`filter_data`), aggregation (`build_chart_data`), per-locality statistics
(`_compute_area_stats`, modelled as `computeAreaStats`), investment scoring
and ranking (`build_insights`), and the deterministic summary
(`build_basic_summary`).

Modelling conventions:
* A pandas `DataFrame` row with the five schema columns becomes a `Row`
  record; a frame is a `List Row` in row order.  Data is assumed clean
  (no NaN cells), so `dropna()` is the identity and numeric cells are
  modelled as exact rationals; Python floats are modelled as exact `ℚ`/`ℝ`
  values, and the transcendental operations the code performs on them
  (`**` with a fractional exponent, `std`'s square root) become `Real`
  operations.
* `groupby` iterates its groups with keys sorted ascending (pandas
  default `sort=True`); within a group the original row order is kept.
* Python's stable `list.sort(..., reverse=True)` is modelled by a stable
  descending insertion sort, `sortRanked`.
* The module-level dataset cache `_df` becomes explicit state of type
  `Option (List Row)` threaded through `getDataset` / `filter_data`;
  `file` stands for the contents of the Excel file.  The load-error paths
  (missing file, missing columns) are outside the claims considered here.
-/

namespace RealEstate

/-- One row of the normalized dataset, with the five columns named by
`SCHEMA`: `final_location`, `year`, `city`, `flat_-_weighted_average_rate`,
`total_sold_-_igr`. -/
structure Row where
  area : String
  year : Int
  city : String
  price : ℚ
  demand : ℚ
deriving DecidableEq

/-- Worker for `uniqueList`: keep the elements not seen yet, in order. -/
def uniqueAux {α : Type} [DecidableEq α] (seen : List α) : List α → List α
  | [] => []
  | x :: xs => if x ∈ seen then uniqueAux seen xs else x :: uniqueAux (x :: seen) xs

/-- `pandas.Series.unique` / building a Python `dict` keyed by first
occurrence: the distinct elements of a list in first-encounter order. -/
def uniqueList {α : Type} [DecidableEq α] (l : List α) : List α :=
  uniqueAux [] l

/-- Python's `l[-1]` with a default for the empty list (which every call
site guards against). -/
def lastD {α : Type} : List α → α → α
  | [], d => d
  | [x], _ => x
  | _ :: y :: t, d => lastD (y :: t) d

/-- Python's `sorted` on a list over a linear order (ascending). -/
def insertAsc {α : Type} [LinearOrder α] (x : α) : List α → List α
  | [] => [x]
  | y :: ys => if x ≤ y then x :: y :: ys else y :: insertAsc x ys

/-- Python's `sorted` on a list over a linear order (ascending). -/
def sortAsc {α : Type} [LinearOrder α] : List α → List α
  | [] => []
  | x :: xs => insertAsc x (sortAsc xs)

/-- `pandas.Series.mean` over the listed cells. -/
def mean (l : List ℚ) : ℚ := l.sum / l.length

/-- Python `min` over a list (`0` stands for the empty case, which every
call site guards against). -/
def minQD : List ℚ → ℚ
  | [] => 0
  | x :: xs => xs.foldl min x

/-- Python `max` over a list (`0` stands for the empty case, which every
call site guards against). -/
def maxQD : List ℚ → ℚ
  | [] => 0
  | x :: xs => xs.foldl max x

/-- Python `min` over a list of years. -/
def minIntD : List Int → Int
  | [] => 0
  | x :: xs => xs.foldl min x

/-- Python `max` over a list of years. -/
def maxIntD : List Int → Int
  | [] => 0
  | x :: xs => xs.foldl max x

/-- Python's substring test `pat in s` on character lists. -/
def subOccurs (pat : List Char) : List Char → Bool
  | [] => pat.isPrefixOf ([] : List Char)
  | c :: t => pat.isPrefixOf (c :: t) || subOccurs pat t

/-- Python's substring test `pat in s`. -/
def strContains (s pat : String) : Bool := subOccurs pat.toList s.toList

/-- Python's `str.lower()` (`String.toLower`, written over the character
list so that it evaluates inside the kernel). -/
def strLower (s : String) : String := String.mk (s.toList.map Char.toLower)

/-- Python's `str.strip()` (`String.trim` over the character list). -/
def strTrim (s : String) : String :=
  String.mk (((s.toList.dropWhile Char.isWhitespace).reverse.dropWhile
    Char.isWhitespace).reverse)

/-- Worker for `splitWs`: `cur` holds the current token reversed. -/
def splitWsAux (cur : List Char) : List Char → List String
  | [] => if cur = [] then [] else [String.mk cur.reverse]
  | c :: t =>
    if Char.isWhitespace c then
      if cur = [] then splitWsAux [] t
      else String.mk cur.reverse :: splitWsAux [] t
    else splitWsAux (c :: cur) t

/-- Python's no-argument `str.split()`: split on whitespace runs, with no
empty tokens. -/
def splitWs (s : String) : List String := splitWsAux [] s.toList

/-! ## Dataset store (`get_dataset`) -/

/-- `get_dataset`: return the cached dataset if the module-level cache is
populated, otherwise load the Excel contents (`file`) and populate the
cache.  The state is returned explicitly. -/
def getDataset (cache : Option (List Row)) (file : List Row) :
    List Row × Option (List Row) :=
  match cache with
  | some df => (df, some df)
  | none => (file, some file)

/-! ## Entity extraction -/

/-- A regex word character `\w` (ASCII form, which covers the dataset's
locality names and query texts). -/
def isWordChar (c : Char) : Bool := c.isAlphanum || c = '_'

/-- Numeric value of a decimal digit character. -/
def digitVal (c : Char) : Nat := c.toNat - '0'.toNat

/-- The scan behind `re.findall(r"\b(19\d{2}|20\d{2})\b", message)`:
walk the text remembering the previous character; a match needs four
digits starting `19` or `20` with no word character on either side, and
scanning resumes after a match (matches cannot overlap here since their
interiors are word characters). -/
def yearScan : Option Char → List Char → List Nat
  | prev, c1 :: c2 :: c3 :: c4 :: rest =>
    let okPrev := match prev with
      | none => true
      | some p => !isWordChar p
    let okNext := match rest with
      | [] => true
      | n :: _ => !isWordChar n
    let okShape := ((c1 = '1' ∧ c2 = '9') ∨ (c1 = '2' ∧ c2 = '0')) ∧
      c3.isDigit ∧ c4.isDigit
    if okPrev && okNext && decide okShape then
      (1000 * digitVal c1 + 100 * digitVal c2 + 10 * digitVal c3 + digitVal c4)
        :: yearScan (some c4) rest
    else
      yearScan (some c1) (c2 :: c3 :: c4 :: rest)
  | _, _ => []

/-- The year tokens `re.findall` produces for a message, in text order. -/
def yearsFound (message : String) : List Nat := yearScan none message.toList

/-- `extract_year_range`: `None` when no 4-digit `19xx`/`20xx` token occurs;
otherwise the span of `sorted(set(years))`, with the single-year case
returned as `(y, y)`. -/
def extract_year_range (message : String) : Option (Nat × Nat) :=
  let ys := yearsFound message
  if ys = [] then none
  else
    let s := sortAsc (uniqueList ys)
    if s.length = 1 then some (s.headD 0, s.headD 0)
    else some (s.headD 0, lastD s 0)

/-- The demand-indicating keywords of `detect_metric`. -/
def demandKws : List String := ["demand", "sales", "interest", "popularity"]

/-- The price-indicating keywords of `detect_metric`. -/
def priceKws : List String := ["price", "rate", "cost", "value"]

/-- `detect_metric`: lowercase the message, then test in order: the literal
substrings `"both"`, or `"price"` together with `"demand"`; any demand
keyword; any price keyword; otherwise the default. -/
def detect_metric (message : String) (dflt : String := "price") : String :=
  let msg := strLower message
  if strContains msg "both" || (strContains msg "price" && strContains msg "demand")
  then "both"
  else if demandKws.any (fun w => strContains msg w) then "demand"
  else if priceKws.any (fun w => strContains msg w) then "price"
  else dflt

/-- The `detectMetric` behaviour as the claim words it: `both` when the text
contains `"both"` or contains both a price-indicating and a
demand-indicating keyword (any of the two keyword sets).  Stated from the
claim, not from the source, to compare the two. -/
def detectMetricClaim (message : String) (dflt : String) : String :=
  let msg := strLower message
  if strContains msg "both" ||
      (priceKws.any (fun w => strContains msg w) &&
        demandKws.any (fun w => strContains msg w))
  then "both"
  else if demandKws.any (fun w => strContains msg w) then "demand"
  else if priceKws.any (fun w => strContains msg w) then "price"
  else dflt

/-- Word-character test at an index of the text (`false` outside it). -/
def wordAt (cs : List Char) (i : Nat) : Bool :=
  match cs.get? i with
  | some c => isWordChar c
  | none => false

/-- The regex boundary `\b` at position `i` of the text, i.e. between the
characters at indices `i - 1` and `i`: exactly one of the two sides is a
word character (positions outside the text count as non-word). -/
def boundaryAt (cs : List Char) (i : Nat) : Bool :=
  (match i with
    | 0 => false
    | j + 1 => wordAt cs j) != wordAt cs i

/-- The escaped locality occurs literally at index `i` of the text. -/
def occursAt (pat cs : List Char) (i : Nat) : Bool :=
  pat.isPrefixOf (cs.drop i)

/-- `re.search(r"\b" + re.escape(pat) + r"\b", text)`: some position carries
a literal occurrence of the pattern with `\b` holding on both sides. -/
def regexWordSearch (pat cs : List Char) : Bool :=
  (List.range (cs.length + 1)).any fun i =>
    occursAt pat cs i && boundaryAt cs i && boundaryAt cs (i + pat.length)

/-- Phase 1 of `extract_areas_from_message`: the distinct localities of the
dataset whose normalized form the lowercased, stripped message contains as
a word-boundary (`\b`-delimited) occurrence, in dataset encounter order. -/
def exactPhase (df : List Row) (message : String) : List String :=
  let msg := strTrim (strLower message)
  (uniqueList (df.map (fun r => r.area))).filter fun loc =>
    regexWordSearch (strTrim (strLower loc)).toList msg.toList

/-- Phase 2 of `extract_areas_from_message`: contiguous 1–3-word n-grams of
the message are offered to `difflib.get_close_matches` (the external
`closeMatches` parameter, called with the candidate and the lowercased
locality list; the `n=3, cutoff=0.8` configuration lives inside it), and
every original locality whose lowercase form is returned is collected.
Python's intermediate `set`s become first-occurrence deduplication. -/
def fuzzyPhase (closeMatches : String → List String → List String)
    (df : List Row) (message : String) : List String :=
  let msg := strTrim (strLower message)
  let areas := uniqueList (df.map (fun r => r.area))
  let tokens := splitWs msg
  let candidates := uniqueList <|
    (List.range (min 3 tokens.length)).flatMap fun n0 =>
      (List.range (tokens.length - (n0 + 1) + 1)).map fun i =>
        String.intercalate " " ((tokens.drop i).take (n0 + 1))
  let normList := areas.map (fun a => strLower a)
  uniqueList <| candidates.flatMap fun cand =>
    (closeMatches (strLower cand) normList).flatMap fun m =>
      areas.filter fun a => strLower a = m

/-- `extract_areas_from_message`: exact word-boundary matching against the
distinct dataset localities; the fuzzy fallback only when that finds
nothing. -/
def extract_areas_from_message (closeMatches : String → List String → List String)
    (df : List Row) (message : String) : List String :=
  let exact := exactPhase df message
  if exact ≠ [] then exact else fuzzyPhase closeMatches df message

/-! ## Filtering (`filter_data`) -/

/-- The row normalizer `lambda s: str(s).strip().lower()`. -/
def normStr (s : String) : String := strLower (strTrim s)

/-- The filtering core of `filter_data`, applied to the loaded dataset:
city filter (normalized membership), then area filter (normalized
substring containment, OR over the requested terms), then inclusive year
range.  An omitted filter (empty list / `none`) imposes no constraint.
The helper columns `_area_norm`/`_city_norm` exist only inside the Python
function and are dropped before returning, so they do not appear in the
model; pandas `str.contains` treats the term as a regex, which for the
plain locality terms used here is literal substring containment. -/
def filterCore (df : List Row) (areas : List String)
    (year_range : Option (Int × Int)) (cities : List String) : List Row :=
  let areasN := areas.map normStr
  let citiesN := cities.map normStr
  let f1 := if citiesN ≠ [] then
      df.filter (fun r => citiesN.contains (normStr r.city))
    else df
  let f2 := if areasN ≠ [] then
      f1.filter (fun r => areasN.any (fun a => strContains (normStr r.area) a))
    else f1
  match year_range with
  | some (s, e) => f2.filter (fun r => decide (s ≤ r.year) && decide (r.year ≤ e))
  | none => f2

/-- `filter_data`: fetch the dataset through the cache, filter a copy of
it, and return the rows together with the cache state left behind. -/
def filter_data (cache : Option (List Row)) (file : List Row)
    (areas : List String) (year_range : Option (Int × Int))
    (cities : List String) : List Row × Option (List Row) :=
  let p := getDataset cache file
  (filterCore p.1 areas year_range cities, p.2)

/-! ## Aggregation (`build_chart_data`) -/

/-- One entry of the chart's `datasets` list. -/
structure ChartSeries where
  label : String
  metric : String
  data : List (Option ℚ)
deriving DecidableEq

/-- The value `build_chart_data` returns. -/
structure ChartData where
  labels : List Int
  datasets : List ChartSeries
deriving DecidableEq

/-- `SCHEMA.get(m)` restricted to the numeric metric columns the chart can
average (`price` and `demand`; other metric strings find no usable
column and the series is skipped). -/
def metricCol : String → Option (Row → ℚ)
  | "price" => some (fun r => r.price)
  | "demand" => some (fun r => r.demand)
  | _ => none

/-- `grouped[col].mean().loc[(year, area)]` with the `KeyError` fallback:
the mean of the column over the rows of one (year, area) group, or `none`
when the group is empty. -/
def groupMean (df : List Row) (col : Row → ℚ) (y : Int) (a : String) :
    Option ℚ :=
  let g := df.filter fun r => decide (r.year = y) && decide (r.area = a)
  if g = [] then none else some (mean (g.map col))

/-- `build_chart_data`: empty chart for an empty subset; otherwise labels
are the distinct years ascending, and one series per distinct locality
(encounter order) and requested metric (`price` then `demand` when
`both`), holding the per-year group means with `none` for missing
(year, locality) groups. -/
def build_chart_data (df : List Row) (metric : String) : ChartData :=
  if df = [] then ⟨[], []⟩
  else
    let metrics := if metric = "both" then ["price", "demand"] else [metric]
    let labels := sortAsc (uniqueList (df.map (fun r => r.year)))
    let datasets := (uniqueList (df.map (fun r => r.area))).flatMap fun area =>
      metrics.filterMap fun m =>
        match metricCol m with
        | none => none
        | some col =>
          some { label := if metrics.length > 1 then s!"{area} ({m})" else area
                 metric := m
                 data := labels.map fun y => groupMean df col y area }
    ⟨labels, datasets⟩

/-! ## Per-locality statistics (`_compute_area_stats`) -/

/-- The rows of one locality group, in original row order
(`filtered_df.groupby(area_col)` keeps the row order inside a group; the
`sort_values(year_col)` the code applies next only matters through the
year-keyed aggregations below, which sort by year themselves). -/
def groupRows (df : List Row) (a : String) : List Row :=
  df.filter fun r => decide (r.area = a)

/-- The group keys of `filtered_df.groupby(area_col)`: distinct localities
sorted ascending (pandas `sort=True` default). -/
def areaNames (df : List Row) : List String :=
  sortAsc (uniqueList (df.map (fun r => r.area)))

/-- The distinct years of one locality group, ascending: the index of
`group.groupby(year_col)[...].mean().sort_index()`. -/
def yearKeys (df : List Row) (a : String) : List Int :=
  sortAsc (uniqueList ((groupRows df a).map (fun r => r.year)))

/-- The per-year mean price series of one locality group, year ascending. -/
def priceSeries (df : List Row) (a : String) : List (Int × ℚ) :=
  (yearKeys df a).map fun y =>
    (y, mean (((groupRows df a).filter (fun r => decide (r.year = y))).map
      (fun r => r.price)))

/-- The per-year total demand series of one locality group, year
ascending. -/
def demandSeries (df : List Row) (a : String) : List (Int × ℚ) :=
  (yearKeys df a).map fun y =>
    (y, (((groupRows df a).filter (fun r => decide (r.year = y))).map
      (fun r => r.demand)).sum)

/-- The CAGR branch of `_compute_area_stats`: with at least two points in
the per-year price series and a positive first price,
`(p_last / p_first) ** (1 / n_years) - 1` (real exponentiation models the
Python float power); in every other case `0.0`.  The `n_years > 0` test of
the source is kept even though `len >= 2` already forces it. -/
noncomputable def cagrOf (df : List Row) (a : String) : ℝ :=
  let s := priceSeries df a
  if 2 ≤ s.length then
    let p0 : ℚ := (s.headD (0, 0)).2
    let pN : ℚ := (lastD s (0, 0)).2
    let n : Nat := s.length - 1
    if 0 < p0 ∧ 0 < n then
      ((pN : ℝ) / (p0 : ℝ)) ^ ((1 : ℝ) / (n : ℝ)) - 1
    else 0
  else 0

/-- `Series.pct_change().dropna()`: successive ratios minus one, the first
(undefined) entry dropped. -/
def pctChanges (s : List ℚ) : List ℚ :=
  match s with
  | [] => []
  | _ :: t => (s.zip t).map fun p => p.2 / p.1 - 1

/-- Sample variance (`ddof=1`, the pandas `std` default squared). -/
def sampleVar (l : List ℚ) : ℚ :=
  ((l.map fun x => (x - mean l) ^ 2).sum) / ((l.length - 1 : Nat) : ℚ)

/-- The volatility branch of `_compute_area_stats`: the standard deviation
of the year-over-year percentage price changes when the series has at
least three points, else `0.0`. -/
noncomputable def volatilityOf (df : List Row) (a : String) : ℝ :=
  let s := (priceSeries df a).map (fun p => p.2)
  if 3 ≤ s.length then Real.sqrt (sampleVar (pctChanges s)) else 0

/-- The demand-trend branch of `_compute_area_stats`.  The demand column is
part of the validated schema, so the `demand_col in group.columns` test of
the source is always true and the `"Unknown"` default only survives the
fewer-than-two-years case. -/
def demandTrendOf (df : List Row) (a : String) : String :=
  let d := (demandSeries df a).map (fun p => p.2)
  if 2 ≤ d.length then
    let d0 := d.headD 0
    let dN := lastD d 0
    if dN > d0 * (11 / 10) then "Rising"
    else if dN < d0 * (9 / 10) then "Falling"
    else "Stable"
  else "Unknown"

/-- The forecast branch of `_compute_area_stats`: with at least two points,
the least-squares line `np.polyfit(xs, ys, 1)` in closed form, evaluated at
`year_max + 1`; the singular case (never reached with two distinct years)
and the fewer-than-two-points case yield `None`, as the source's
`try/except` and guard do. -/
def forecastOf (df : List Row) (a : String) : Option ℚ :=
  let s := priceSeries df a
  if 2 ≤ s.length then
    let xs := s.map fun p => (p.1 : ℚ)
    let ys := s.map fun p => p.2
    let n : ℚ := s.length
    let sx := xs.sum
    let sy := ys.sum
    let sxx := (xs.map fun x => x * x).sum
    let sxy := ((xs.zip ys).map fun p => p.1 * p.2).sum
    let den := n * sxx - sx * sx
    if den = 0 then none
    else
      let m := (n * sxy - sx * sy) / den
      let b := (sy - m * sx) / n
      some (m * ((maxIntD (uniqueList ((groupRows df a).map (fun r => r.year))) : ℚ) + 1) + b)
  else none

/-- The per-locality statistics record of `_compute_area_stats`. -/
structure AreaStats where
  year_start : Int
  year_end : Int
  avg_price : ℚ
  min_price : ℚ
  max_price : ℚ
  price_cagr : ℝ
  price_volatility : ℝ
  avg_demand : ℚ
  total_demand : ℚ
  demand_trend : String
  price_forecast_next_year : Option ℚ

/-- The statistics record `_compute_area_stats` builds for one locality
group. -/
noncomputable def areaStatsOf (df : List Row) (a : String) : AreaStats :=
  let years := uniqueList ((groupRows df a).map (fun r => r.year))
  let pvals := (priceSeries df a).map (fun p => p.2)
  let dvals := (demandSeries df a).map (fun p => p.2)
  { year_start := minIntD years
    year_end := maxIntD years
    avg_price := mean pvals
    min_price := minQD pvals
    max_price := maxQD pvals
    price_cagr := cagrOf df a
    price_volatility := volatilityOf df a
    avg_demand := mean dvals
    total_demand := dvals.sum
    demand_trend := demandTrendOf df a
    price_forecast_next_year := forecastOf df a }

/-- `_compute_area_stats`: one record per locality group, in groupby key
order (empty for an empty subset, since there are no groups). -/
noncomputable def computeAreaStats (df : List Row) :
    List (String × AreaStats) :=
  (areaNames df).map fun a => (a, areaStatsOf df a)

/-! ## Investment scoring and ranking (`build_insights`) -/

/-- `max(0.0, min(10.0, x))`. -/
noncomputable def clampScore (x : ℝ) : ℝ := max 0 (min 10 x)

/-- `max((s["avg_demand"] or 0.0) for s in base_stats.values()) or 1.0`
(the `or 0.0` is the identity here: the schema guarantees the demand
column, so `avg_demand` is a number, and `0.0 or 0.0` is `0.0`). -/
def maxAvgDemand (df : List Row) : ℚ :=
  let v := maxQD ((areaNames df).map fun a =>
    mean ((demandSeries df a).map (fun p => p.2)))
  if v = 0 then 1 else v

/-- The volatilities of the statistics batch. -/
noncomputable def volList (df : List Row) : List ℝ :=
  (areaNames df).map fun a => volatilityOf df a

/-- Python `max` over the batch volatilities (real-valued). -/
noncomputable def maxRD : List ℝ → ℝ
  | [] => 0
  | x :: xs => xs.foldl max x

/-- `max((s["price_volatility"] or 0.0) for s in ...) or 1.0`. -/
noncomputable def maxVolatility (df : List Row) : ℝ :=
  let v := maxRD (volList df)
  if v = 0 then 1 else v

/-- `growth_score = max(0.0, min(10.0, (cagr + 0.05) / 0.20 * 10.0))`. -/
noncomputable def growthScoreOf (df : List Row) (a : String) : ℝ :=
  clampScore ((cagrOf df a + 0.05) / 0.20 * 10.0)

/-- `demand_score = max(0.0, min(10.0, avg_demand / max_avg_demand * 10.0))`. -/
noncomputable def demandScoreOf (df : List Row) (a : String) : ℝ :=
  clampScore (((areaStatsOf df a).avg_demand : ℝ) / (maxAvgDemand df : ℝ) * 10.0)

/-- `risk_score = 10.0 - max(0.0, min(10.0, vol / max_volatility * 10.0))`. -/
noncomputable def riskScoreOf (df : List Row) (a : String) : ℝ :=
  10.0 - clampScore (volatilityOf df a / maxVolatility df * 10.0)

/-- `investment_score = 0.4 * growth + 0.4 * demand + 0.2 * risk`. -/
noncomputable def investmentScoreOf (df : List Row) (a : String) : ℝ :=
  0.4 * growthScoreOf df a + 0.4 * demandScoreOf df a + 0.2 * riskScoreOf df a

/-- The statistics record after `build_insights` has attached the four
scores to it. -/
structure ScoredStats extends AreaStats where
  growth_score : ℝ
  demand_score : ℝ
  risk_score : ℝ
  investment_score : ℝ

/-- The scored record for one locality. -/
noncomputable def scoredStatsOf (df : List Row) (a : String) : ScoredStats :=
  { areaStatsOf df a with
    growth_score := growthScoreOf df a
    demand_score := demandScoreOf df a
    risk_score := riskScoreOf df a
    investment_score := investmentScoreOf df a }

/-- One entry of the `ranked` list: the locality and its
one-decimal-rounded investment score. -/
structure RankEntry where
  area : String
  investment_score : ℝ

/-- Python's `round` to an integer: round half to even, as `round(x)` and
the `round(x, 1)` scaling below behave on the exact value. -/
noncomputable def roundHalfEven (x : ℝ) : ℤ :=
  open Classical in
  if x - ⌊x⌋ < 1 / 2 then ⌊x⌋
  else if 1 / 2 < x - ⌊x⌋ then ⌊x⌋ + 1
  else if 2 ∣ ⌊x⌋ then ⌊x⌋ else ⌊x⌋ + 1

/-- `round(x, 1)`. -/
noncomputable def rnd1 (x : ℝ) : ℝ := (roundHalfEven (10 * x) : ℝ) / 10

/-- The `ranked` list as built before sorting: one entry per locality in
`base_stats` iteration order, score rounded to one decimal. -/
noncomputable def preRanked (df : List Row) : List RankEntry :=
  (areaNames df).map fun a =>
    { area := a, investment_score := rnd1 (investmentScoreOf df a) }

/-- Stable descending insertion: the new entry goes in front of the
earliest existing entry whose score is not larger.  Inserting the earliest
input element into the sorted rest this way models exactly Python's stable
`list.sort(key=..., reverse=True)`. -/
noncomputable def insertDesc (x : RankEntry) : List RankEntry → List RankEntry
  | [] => [x]
  | y :: ys =>
    open Classical in
    if y.investment_score ≤ x.investment_score then x :: y :: ys
    else y :: insertDesc x ys

/-- `ranked.sort(key=lambda x: x["investment_score"], reverse=True)`. -/
noncomputable def sortRanked : List RankEntry → List RankEntry
  | [] => []
  | x :: xs => insertDesc x (sortRanked xs)

/-- The value `build_insights` returns. -/
structure Insights where
  areas : List (String × ScoredStats)
  ranked_areas : List RankEntry
  year_range : Option (Int × Int)
  metric : String

/-- `build_insights`: empty skeleton when the statistics batch is empty;
otherwise the scored records in batch order and the ranked list sorted by
rounded score descending, Python-stably. -/
noncomputable def build_insights (df : List Row) (yr : Option (Int × Int))
    (metric : String) : Insights :=
  match areaNames df with
  | [] => ⟨[], [], yr, metric⟩
  | _ :: _ =>
    ⟨(areaNames df).map (fun a => (a, scoredStatsOf df a)),
      sortRanked (preRanked df), yr, metric⟩

/-! ## Deterministic summary (`build_basic_summary`) -/

/-- Round half to even on an exact rational, for the `{:,.0f}` format. -/
def rndHalfEvenQ (q : ℚ) : ℤ :=
  if q - ⌊q⌋ < 1 / 2 then ⌊q⌋
  else if 1 / 2 < q - ⌊q⌋ then ⌊q⌋ + 1
  else if 2 ∣ ⌊q⌋ then ⌊q⌋ else ⌊q⌋ + 1

/-- Insert thousands separators into a reversed digit list. -/
def commaGroupAux : List Char → List Char
  | a :: b :: c :: d :: rest => a :: b :: c :: ',' :: commaGroupAux (d :: rest)
  | l => l

/-- Python's `f"{v:,.0f}"`: round to an integer and group the digits in
threes with commas. -/
def fmtComma0 (q : ℚ) : String :=
  let n := rndHalfEvenQ q
  let ds := (toString n.natAbs).toList
  (if n < 0 then "-" else "") ++ String.mk (commaGroupAux ds.reverse).reverse

/-- `build_basic_summary`: the fixed no-data message for an empty subset;
otherwise the template sentences about scope, year span, price range,
demand range and trend, joined with single spaces. -/
def build_basic_summary (df : List Row) (areas cities : List String)
    (year_range : Option (Int × Int)) (metric : String) : String :=
  if df = [] then
    "I couldn’t find matching data for your query. Try another locality, city, or year range."
  else
    let years := sortAsc (uniqueList (df.map (fun r => r.year)))
    let y0 := years.headD 0
    let y1 := lastD years 0
    let labelParts :=
      (if areas ≠ [] then [String.intercalate ", " areas] else []) ++
      (if cities ≠ [] then [" in " ++ String.intercalate ", " cities] else [])
    let labelParts := if labelParts = [] then ["the selected dataset"] else labelParts
    let lbl := String.join labelParts
    let scopePart := s!"Here’s the market analysis for {lbl}."
    let spanPart := s!"Data is available from {y0} to {y1}."
    let pricePart :=
      if metric = "price" ∨ metric = "both" then
        let lo := fmtComma0 (minQD (df.map (fun r => r.price)))
        let hi := fmtComma0 (maxQD (df.map (fun r => r.price)))
        [s!"Average flat prices range approximately between ₹{lo} and ₹{hi}."]
      else []
    let demandPart :=
      if metric = "demand" ∨ metric = "both" then
        let lo := fmtComma0 (minQD (df.map (fun r => r.demand)))
        let hi := fmtComma0 (maxQD (df.map (fun r => r.demand)))
        [s!"Annual sales (IGR) vary between {lo} and {hi} units."]
      else []
    let trendPart :=
      if metric = "price" ∨ metric = "both" then
        let firstAvg := mean ((df.filter (fun r => decide (r.year = y0))).map
          (fun r => r.price))
        let lastAvg := mean ((df.filter (fun r => decide (r.year = y1))).map
          (fun r => r.price))
        if lastAvg > firstAvg * (21 / 20) then
          [s!"Overall, prices show an upward trend from {y0} to {y1}."]
        else if lastAvg < firstAvg * (19 / 20) then
          [s!"Prices appear to have softened between {y0} and {y1}."]
        else ["Prices look relatively stable over the observed period."]
      else []
    String.intercalate " "
      ([scopePart, spanPart] ++ pricePart ++ demandPart ++ trendPart)

/-! ## Supporting lemmas: deduplication, sorting, folds -/

theorem mem_uniqueAux {α : Type} [DecidableEq α] :
    ∀ (l seen : List α) (x : α), x ∈ uniqueAux seen l ↔ (x ∈ l ∧ x ∉ seen)
  | [], seen, x => by simp [uniqueAux]
  | a :: t, seen, x => by
    rw [uniqueAux]
    by_cases ha : a ∈ seen
    · rw [if_pos ha, mem_uniqueAux t seen x]
      constructor
      · rintro ⟨hx, hns⟩
        exact ⟨List.mem_cons_of_mem a hx, hns⟩
      · rintro ⟨hx, hns⟩
        rcases List.mem_cons.mp hx with rfl | hx
        · exact absurd ha hns
        · exact ⟨hx, hns⟩
    · rw [if_neg ha]
      simp only [List.mem_cons, mem_uniqueAux t (a :: seen) x]
      constructor
      · rintro (rfl | ⟨hx, hns⟩)
        · exact ⟨Or.inl rfl, ha⟩
        · exact ⟨Or.inr hx, fun hs => hns (Or.inr hs)⟩
      · rintro ⟨rfl | hx, hns⟩
        · exact Or.inl rfl
        · by_cases hxa : x = a
          · exact Or.inl hxa
          · refine Or.inr ⟨hx, ?_⟩
            rintro (rfl | h)
            · exact hxa rfl
            · exact hns h

theorem nodup_uniqueAux {α : Type} [DecidableEq α] :
    ∀ (l seen : List α), (uniqueAux seen l).Nodup
  | [], seen => by simp [uniqueAux]
  | a :: t, seen => by
    rw [uniqueAux]
    by_cases ha : a ∈ seen
    · rw [if_pos ha]
      exact nodup_uniqueAux t seen
    · rw [if_neg ha]
      refine List.nodup_cons.mpr ⟨?_, nodup_uniqueAux t (a :: seen)⟩
      intro hmem
      exact ((mem_uniqueAux t (a :: seen) a).mp hmem).2 (List.mem_cons_self a seen)

theorem mem_uniqueList {α : Type} [DecidableEq α] (l : List α) (x : α) :
    x ∈ uniqueList l ↔ x ∈ l := by
  rw [uniqueList, mem_uniqueAux]
  simp

theorem nodup_uniqueList {α : Type} [DecidableEq α] (l : List α) :
    (uniqueList l).Nodup :=
  nodup_uniqueAux l []

theorem uniqueList_eq_nil {α : Type} [DecidableEq α] (l : List α) :
    uniqueList l = [] ↔ l = [] := by
  cases l with
  | nil => simp [uniqueList, uniqueAux]
  | cons a t => simp [uniqueList, uniqueAux]

theorem insertAsc_perm {α : Type} [LinearOrder α] (x : α) (l : List α) :
    List.Perm (insertAsc x l) (x :: l) := by
  induction l with
  | nil => exact List.Perm.refl _
  | cons y ys ih =>
    rw [insertAsc]
    split
    · exact List.Perm.refl _
    · exact (ih.cons y).trans (List.Perm.swap x y ys)

theorem sortAsc_perm {α : Type} [LinearOrder α] (l : List α) :
    List.Perm (sortAsc l) l := by
  induction l with
  | nil => exact List.Perm.refl _
  | cons x xs ih => exact (insertAsc_perm x (sortAsc xs)).trans (ih.cons x)

theorem mem_sortAsc {α : Type} [LinearOrder α] {l : List α} {x : α} :
    x ∈ sortAsc l ↔ x ∈ l :=
  (sortAsc_perm l).mem_iff

theorem insertAsc_pairwise {α : Type} [LinearOrder α] {l : List α} (x : α)
    (h : l.Pairwise (· ≤ ·)) : (insertAsc x l).Pairwise (· ≤ ·) := by
  induction l with
  | nil => simp [insertAsc]
  | cons y ys ih =>
    rw [insertAsc]
    rcases List.pairwise_cons.mp h with ⟨hy, hys⟩
    split
    · rename_i hxy
      exact List.pairwise_cons.mpr ⟨by
        intro z hz
        rcases List.mem_cons.mp hz with rfl | hz
        · exact hxy
        · exact le_trans hxy (hy z hz), h⟩
    · rename_i hxy
      refine List.pairwise_cons.mpr ⟨?_, ih hys⟩
      intro z hz
      rcases List.mem_cons.mp ((insertAsc_perm x ys).mem_iff.mp hz) with rfl | hz
      · exact le_of_not_le hxy
      · exact hy z hz

theorem sortAsc_pairwise {α : Type} [LinearOrder α] (l : List α) :
    (sortAsc l).Pairwise (· ≤ ·) := by
  induction l with
  | nil => simp [sortAsc]
  | cons x xs ih => exact insertAsc_pairwise x ih

theorem sortAsc_nodup {α : Type} [LinearOrder α] {l : List α} (h : l.Nodup) :
    (sortAsc l).Nodup :=
  (sortAsc_perm l).nodup_iff.mpr h

theorem sortAsc_eq_nil {α : Type} [LinearOrder α] {l : List α} :
    sortAsc l = [] ↔ l = [] := by
  constructor
  · intro h
    have hp := sortAsc_perm l
    rw [h] at hp
    exact hp.symm.eq_nil
  · rintro rfl
    rfl

theorem headD_le_of_pairwise {α : Type} [LinearOrder α] {l : List α}
    (hs : l.Pairwise (· ≤ ·)) {x : α} (hx : x ∈ l) (d : α) :
    l.headD d ≤ x := by
  cases l with
  | nil => cases hx
  | cons a t =>
    rcases List.mem_cons.mp hx with rfl | hx
    · exact le_refl _
    · exact (List.pairwise_cons.mp hs).1 x hx

theorem lastD_mem {α : Type} :
    ∀ (l : List α) (d : α), l ≠ [] → lastD l d ∈ l
  | [], _, h => absurd rfl h
  | [x], d, _ => by simp [lastD]
  | a :: b :: t, d, _ => by
    rw [lastD]
    exact List.mem_cons_of_mem a (lastD_mem (b :: t) d (by simp))

theorem lastD_irrel {α : Type} :
    ∀ (l : List α) (d d' : α), l ≠ [] → lastD l d = lastD l d'
  | [], _, _, h => absurd rfl h
  | [x], _, _, _ => rfl
  | a :: b :: t, d, d', _ => by
    rw [lastD, lastD]
    exact lastD_irrel (b :: t) d d' (by simp)

theorem le_lastD_of_pairwise {α : Type} [LinearOrder α] :
    ∀ {l : List α}, l.Pairwise (· ≤ ·) → ∀ {x : α}, x ∈ l → ∀ d, x ≤ lastD l d := by
  intro l
  induction l with
  | nil => intro _ x hx; cases hx
  | cons a t ih =>
    intro hs x hx d
    rcases List.pairwise_cons.mp hs with ⟨ha, ht⟩
    cases t with
    | nil =>
      rcases List.mem_cons.mp hx with rfl | hx
      · simp [lastD]
      · cases hx
    | cons b t' =>
      rw [lastD]
      rcases List.mem_cons.mp hx with rfl | hx
      · exact ha _ (lastD_mem (b :: t') d (by simp))
      · exact ih ht hx d

theorem foldl_min_le_self {α : Type} [LinearOrder α] :
    ∀ (l : List α) (x : α), l.foldl min x ≤ x := by
  intro l
  induction l with
  | nil => intro x; exact le_refl x
  | cons a t ih =>
    intro x
    calc t.foldl min (min x a) ≤ min x a := ih (min x a)
      _ ≤ x := min_le_left _ _

theorem foldl_min_le_mem {α : Type} [LinearOrder α] :
    ∀ (l : List α) (x y : α), y ∈ l → l.foldl min x ≤ y := by
  intro l
  induction l with
  | nil => intro x y hy; cases hy
  | cons a t ih =>
    intro x y hy
    rcases List.mem_cons.mp hy with rfl | hy
    · calc t.foldl min (min x y) ≤ min x y := foldl_min_le_self t _
        _ ≤ y := min_le_right _ _
    · exact ih (min x a) y hy

theorem self_le_foldl_max {α : Type} [LinearOrder α] :
    ∀ (l : List α) (x : α), x ≤ l.foldl max x := by
  intro l
  induction l with
  | nil => intro x; exact le_refl x
  | cons a t ih =>
    intro x
    calc x ≤ max x a := le_max_left _ _
      _ ≤ t.foldl max (max x a) := ih (max x a)

theorem mem_le_foldl_max {α : Type} [LinearOrder α] :
    ∀ (l : List α) (x y : α), y ∈ l → y ≤ l.foldl max x := by
  intro l
  induction l with
  | nil => intro x y hy; cases hy
  | cons a t ih =>
    intro x y hy
    rcases List.mem_cons.mp hy with rfl | hy
    · calc y ≤ max x y := le_max_right _ _
        _ ≤ t.foldl max (max x y) := self_le_foldl_max t _
    · exact ih (max x a) y hy

theorem mul_le_sum_of_forall_le (l : List ℚ) (m : ℚ)
    (h : ∀ y ∈ l, m ≤ y) : (l.length : ℚ) * m ≤ l.sum := by
  induction l with
  | nil => simp
  | cons a t ih =>
    have ha := h a (List.mem_cons_self a t)
    have ht := ih (fun y hy => h y (List.mem_cons_of_mem a hy))
    simp only [List.length_cons, List.sum_cons]
    push_cast
    linarith

theorem sum_le_mul_of_forall_le (l : List ℚ) (m : ℚ)
    (h : ∀ y ∈ l, y ≤ m) : l.sum ≤ (l.length : ℚ) * m := by
  induction l with
  | nil => simp
  | cons a t ih =>
    have ha := h a (List.mem_cons_self a t)
    have ht := ih (fun y hy => h y (List.mem_cons_of_mem a hy))
    simp only [List.length_cons, List.sum_cons]
    push_cast
    linarith

theorem minQD_le_forall {l : List ℚ} (hne : l ≠ []) {x : ℚ} (hx : x ∈ l) :
    minQD l ≤ x := by
  cases l with
  | nil => exact absurd rfl hne
  | cons a t =>
    rw [minQD]
    rcases List.mem_cons.mp hx with rfl | hx
    · exact foldl_min_le_self t x
    · exact foldl_min_le_mem t a x hx

theorem forall_le_maxQD {l : List ℚ} (hne : l ≠ []) {x : ℚ} (hx : x ∈ l) :
    x ≤ maxQD l := by
  cases l with
  | nil => exact absurd rfl hne
  | cons a t =>
    rw [maxQD]
    rcases List.mem_cons.mp hx with rfl | hx
    · exact self_le_foldl_max t x
    · exact mem_le_foldl_max t a x hx

theorem minQD_le_mean {l : List ℚ} (hne : l ≠ []) : minQD l ≤ mean l := by
  have hlen : (0 : ℚ) < l.length := by
    cases l with
    | nil => exact absurd rfl hne
    | cons a t => exact_mod_cast Nat.succ_pos t.length
  have hsum := mul_le_sum_of_forall_le l (minQD l)
    (fun y hy => minQD_le_forall hne hy)
  rw [mean, le_div_iff₀ hlen]
  linarith

theorem mean_le_maxQD {l : List ℚ} (hne : l ≠ []) : mean l ≤ maxQD l := by
  have hlen : (0 : ℚ) < l.length := by
    cases l with
    | nil => exact absurd rfl hne
    | cons a t => exact_mod_cast Nat.succ_pos t.length
  have hsum := sum_le_mul_of_forall_le l (maxQD l)
    (fun y hy => forall_le_maxQD hne hy)
  rw [mean, div_le_iff₀ hlen]
  linarith

/-! ## Claim theorems -/

/-- C7: calling `filter_data` with no area, city, or year-range constraint
returns every row of the loaded dataset, in its original order. -/
theorem filter_data_no_constraints (cache : Option (List Row)) (file : List Row) :
    (filter_data cache file [] none []).1 = (getDataset cache file).1 := by
  cases cache <;> rfl

/-- C8: `filter_data` leaves the cached canonical dataset unchanged — after
any call, `get_dataset` returns exactly the rows it returned before the
call, and the cache state is the same one a plain `get_dataset` call
leaves. -/
theorem filter_data_preserves_dataset (cache : Option (List Row))
    (file : List Row) (areas : List String) (year_range : Option (Int × Int))
    (cities : List String) :
    (getDataset (filter_data cache file areas year_range cities).2 file).1 =
      (getDataset cache file).1 ∧
    (filter_data cache file areas year_range cities).2 =
      (getDataset cache file).2 := by
  cases cache <;> exact ⟨rfl, rfl⟩

/-- C9: an empty filtered subset yields exactly the fixed no-data message
from `build_basic_summary`, and `build_chart_data` yields a chart with
empty labels and empty datasets. -/
theorem empty_subset_fixed_outputs (areas cities : List String)
    (year_range : Option (Int × Int)) (metric : String) :
    build_basic_summary [] areas cities year_range metric =
      "I couldn’t find matching data for your query. Try another locality, city, or year range." ∧
    build_chart_data [] metric = ⟨[], []⟩ :=
  ⟨rfl, rfl⟩

/-- C3 counterexample: on `"sales cost"` the code returns `"demand"`
(the `both` branch tests only the literal substrings `"price"` and
`"demand"`), while the claim's reading — any price-indicating together
with any demand-indicating keyword — would return `"both"`. -/
theorem detect_metric_claim_cex :
    detect_metric "sales cost" "price" = "demand" ∧
    detectMetricClaim "sales cost" "price" = "both" := by
  constructor <;> decide

/-- C3 (amended): `detect_metric` returns `both` iff the lowercased text
contains `"both"` or contains both the literal word `"price"` and the
literal word `"demand"`; otherwise `demand` on any of
{demand, sales, interest, popularity}; otherwise `price` on any of
{price, rate, cost, value}; otherwise the default — case-insensitive
substring matching in exactly this priority order. -/
theorem detect_metric_spec (message dflt : String) :
    detect_metric message dflt =
      if strContains (strLower message) "both" = true ∨
          (strContains (strLower message) "price" = true ∧
            strContains (strLower message) "demand" = true) then "both"
      else if ∃ w ∈ demandKws, strContains (strLower message) w = true then "demand"
      else if ∃ w ∈ priceKws, strContains (strLower message) w = true then "price"
      else dflt := by
  simp only [detect_metric, Bool.or_eq_true, Bool.and_eq_true, List.any_eq_true]

example : extract_year_range "from 2018 to 2020 and 1999" = some (1999, 2020) := by decide

example : extract_year_range "in 2019" = some (2019, 2019) := by decide

example : extract_year_range "no years here, 20195 and 1920s" = none := by decide

theorem extract_year_range_eq (message : String) :
    extract_year_range message =
      if yearsFound message = [] then none
      else some ((sortAsc (uniqueList (yearsFound message))).headD 0,
        lastD (sortAsc (uniqueList (yearsFound message))) 0) := by
  unfold extract_year_range
  by_cases h : yearsFound message = []
  · simp [h]
  · rw [if_neg h, if_neg h]
    by_cases hlen : (sortAsc (uniqueList (yearsFound message))).length = 1
    · rw [if_pos hlen]
      obtain ⟨a, ha⟩ := List.length_eq_one.mp hlen
      rw [ha]
      rfl
    · rw [if_neg hlen]

/-- C4: `extract_year_range` returns `none` exactly when the text has no
4-digit `19xx`/`20xx` token; returns `(y, y)` when exactly one distinct
year `y` occurs; and otherwise returns the minimum and maximum over all
years found (gaps between them tolerated). -/
theorem extract_year_range_minmax (message : String) :
    (extract_year_range message = none ↔ yearsFound message = []) ∧
    (∀ y : Nat, y ∈ yearsFound message → (∀ z ∈ yearsFound message, z = y) →
      extract_year_range message = some (y, y)) ∧
    (yearsFound message ≠ [] →
      ∃ a b : Nat, extract_year_range message = some (a, b) ∧
        a ∈ yearsFound message ∧ b ∈ yearsFound message ∧
        ∀ z ∈ yearsFound message, a ≤ z ∧ z ≤ b) := by
  have hsmem : ∀ x : Nat,
      x ∈ sortAsc (uniqueList (yearsFound message)) ↔ x ∈ yearsFound message := by
    intro x
    rw [mem_sortAsc, mem_uniqueList]
  have hpair := sortAsc_pairwise (uniqueList (yearsFound message))
  have hnil : sortAsc (uniqueList (yearsFound message)) = [] ↔
      yearsFound message = [] := by
    rw [sortAsc_eq_nil, uniqueList_eq_nil]
  refine ⟨?_, ?_, ?_⟩
  · rw [extract_year_range_eq]
    by_cases h : yearsFound message = []
    · simp [h]
    · simp [h]
  · intro y hy hall
    have hne : yearsFound message ≠ [] := by
      intro h
      rw [h] at hy
      cases hy
    have hs1 : sortAsc (uniqueList (yearsFound message)) = [y] := by
      have hnodup := sortAsc_nodup (nodup_uniqueList (yearsFound message))
      cases hsc : sortAsc (uniqueList (yearsFound message)) with
      | nil => exact absurd (hnil.mp hsc) hne
      | cons a t =>
        rw [hsc] at hnodup
        have ha : a = y := hall a ((hsmem a).mp (by
          rw [hsc]
          exact List.mem_cons_self a t))
        cases t with
        | nil => rw [ha]
        | cons b t2 =>
          have hb : b = y := hall b ((hsmem b).mp (by
            rw [hsc]
            simp))
          rcases List.nodup_cons.mp hnodup with ⟨hnm, _⟩
          have hab : a = b := ha.trans hb.symm
          have hmem : a ∈ b :: t2 := by
            rw [hab]
            exact List.mem_cons_self b t2
          exact absurd hmem hnm
    rw [extract_year_range_eq, if_neg hne, hs1]
    rfl
  · intro hne
    have hsne : sortAsc (uniqueList (yearsFound message)) ≠ [] := by
      intro h
      exact hne (hnil.mp h)
    rw [extract_year_range_eq, if_neg hne]
    refine ⟨_, _, rfl, ?_, ?_, ?_⟩
    · refine (hsmem _).mp ?_
      cases hs : sortAsc (uniqueList (yearsFound message)) with
      | nil => exact absurd hs hsne
      | cons a t => exact List.mem_cons_self a t
    · refine (hsmem _).mp ?_
      exact lastD_mem _ 0 hsne
    · intro z hz
      have hzs := (hsmem z).mpr hz
      exact ⟨headD_le_of_pairwise hpair hzs 0, le_lastD_of_pairwise hpair hzs 0⟩

/-- C10: every per-locality record of `_compute_area_stats` (for a
locality actually present in the subset, so for every record of a
non-empty subset) is internally consistent: `year_start ≤ year_end` and
`min_price ≤ avg_price ≤ max_price` over the per-year mean price
series. -/
theorem area_stats_consistent (df : List Row) (a : String)
    (h : a ∈ areaNames df) :
    (a, areaStatsOf df a) ∈ computeAreaStats df ∧
    (areaStatsOf df a).year_start ≤ (areaStatsOf df a).year_end ∧
    (areaStatsOf df a).min_price ≤ (areaStatsOf df a).avg_price ∧
    (areaStatsOf df a).avg_price ≤ (areaStatsOf df a).max_price := by
  have hmap : a ∈ df.map (fun r => r.area) :=
    (mem_uniqueList _ _).mp (mem_sortAsc.mp h)
  obtain ⟨r, hr, hra⟩ := List.mem_map.mp hmap
  have hg : r ∈ groupRows df a := List.mem_filter.mpr ⟨hr, by simp [hra]⟩
  have hgne : groupRows df a ≠ [] := List.ne_nil_of_mem hg
  have hyears : uniqueList ((groupRows df a).map (fun r => r.year)) ≠ [] := by
    intro hnil
    rw [uniqueList_eq_nil, List.map_eq_nil_iff] at hnil
    exact hgne hnil
  have hyk : yearKeys df a ≠ [] := by
    intro hnil
    rw [yearKeys, sortAsc_eq_nil] at hnil
    exact hyears hnil
  have hpv : (priceSeries df a).map (fun p => p.2) ≠ [] := by
    intro hnil
    rw [List.map_eq_nil_iff, priceSeries, List.map_eq_nil_iff] at hnil
    exact hyk hnil
  refine ⟨List.mem_map_of_mem _ h, ?_, ?_, ?_⟩
  · show minIntD (uniqueList ((groupRows df a).map (fun r => r.year))) ≤
      maxIntD (uniqueList ((groupRows df a).map (fun r => r.year)))
    cases hys : uniqueList ((groupRows df a).map (fun r => r.year)) with
    | nil => exact absurd hys hyears
    | cons z zs =>
      rw [minIntD, maxIntD]
      exact le_trans (foldl_min_le_self zs z) (self_le_foldl_max zs z)
  · show minQD ((priceSeries df a).map (fun p => p.2)) ≤
      mean ((priceSeries df a).map (fun p => p.2))
    exact minQD_le_mean hpv
  · show mean ((priceSeries df a).map (fun p => p.2)) ≤
      maxQD ((priceSeries df a).map (fun p => p.2))
    exact mean_le_maxQD hpv

/-- C10 witness: the consistency bounds at a concrete one-row dataset. -/
theorem area_stats_consistent_witness :
    (areaStatsOf [⟨"alpha", 2020, "pune", 100, 5⟩] "alpha").min_price ≤
      (areaStatsOf [⟨"alpha", 2020, "pune", 100, 5⟩] "alpha").avg_price :=
  (area_stats_consistent [⟨"alpha", 2020, "pune", 100, 5⟩] "alpha"
    (by decide)).2.2.1

/-- C6: whenever a locality group has at least two distinct years and a
positive first per-year mean price, its reported CAGR is
`(P_last / P_first) ^ (1 / (n_years - 1)) - 1` with `n_years` the number
of distinct years of the group; in every other case it is `0` (the model
is total, so no exception can arise). -/
theorem cagr_formula (df : List Row) (a : String) :
    (2 ≤ (priceSeries df a).length → 0 < ((priceSeries df a).headD (0, 0)).2 →
      (areaStatsOf df a).price_cagr =
        (((lastD (priceSeries df a) (0, 0)).2 : ℝ) /
            (((priceSeries df a).headD (0, 0)).2 : ℝ)) ^
          ((1 : ℝ) / (((yearKeys df a).length - 1 : ℕ) : ℝ)) - 1) ∧
    ((priceSeries df a).length < 2 ∨ ((priceSeries df a).headD (0, 0)).2 ≤ 0 →
      (areaStatsOf df a).price_cagr = 0) := by
  have hcagr : (areaStatsOf df a).price_cagr = cagrOf df a := rfl
  have hlen : (priceSeries df a).length = (yearKeys df a).length := by
    rw [priceSeries, List.length_map]
  constructor
  · intro h2 hp
    rw [hcagr]
    simp only [cagrOf]
    rw [if_pos h2, if_pos ⟨hp, by omega⟩, hlen]
  · intro hor
    rw [hcagr]
    simp only [cagrOf]
    rcases hor with hlt | hp0
    · rw [if_neg (by omega)]
    · by_cases h2 : 2 ≤ (priceSeries df a).length
      · rw [if_pos h2, if_neg (by
          rintro ⟨hpos, _⟩
          exact absurd hp0 (not_le.mpr hpos))]
      · rw [if_neg h2]

/-- C6 witness: the CAGR formula case at a concrete two-year group. -/
theorem cagr_formula_witness :
    (areaStatsOf [⟨"b", 2020, "c", 100, 1⟩, ⟨"b", 2021, "c", 110, 1⟩]
        "b").price_cagr =
      (((lastD (priceSeries [⟨"b", 2020, "c", 100, 1⟩, ⟨"b", 2021, "c", 110, 1⟩]
            "b") (0, 0)).2 : ℝ) /
          (((priceSeries [⟨"b", 2020, "c", 100, 1⟩, ⟨"b", 2021, "c", 110, 1⟩]
            "b").headD (0, 0)).2 : ℝ)) ^
        ((1 : ℝ) / (((yearKeys [⟨"b", 2020, "c", 100, 1⟩,
            ⟨"b", 2021, "c", 110, 1⟩] "b").length - 1 : ℕ) : ℝ)) - 1 :=
  (cagr_formula [⟨"b", 2020, "c", 100, 1⟩, ⟨"b", 2021, "c", 110, 1⟩] "b").1
    (by decide)
    (by norm_num [priceSeries, yearKeys, groupRows, uniqueList, uniqueAux,
      sortAsc, insertAsc, mean])

theorem clampScore_nonneg (x : ℝ) : 0 ≤ clampScore x :=
  le_max_left 0 _

theorem clampScore_le_ten (x : ℝ) : clampScore x ≤ 10 :=
  max_le (by norm_num) (min_le_left _ _)

theorem build_insights_parts (df : List Row) (yr : Option (Int × Int))
    (m : String) (hne : areaNames df ≠ []) :
    (build_insights df yr m).areas =
      (areaNames df).map (fun a => (a, scoredStatsOf df a)) ∧
    (build_insights df yr m).ranked_areas = sortRanked (preRanked df) := by
  unfold build_insights
  split
  · rename_i heq
    exact absurd heq hne
  · exact ⟨rfl, rfl⟩

/-- C1: for a locality of a non-empty statistics batch, the scored record
attached by `build_insights` satisfies: investment score equals
`0.4·growth + 0.4·demand + 0.2·risk` with each component built from a
`[0, 10]`-clamp (demand and volatility normalization denominators floored
at `1` when the batch maximum is `0`), hence the investment score lies in
`[0, 10]`. -/
theorem investment_score_bounds (df : List Row) (yr : Option (Int × Int))
    (m : String) (a : String) (h : a ∈ areaNames df) :
    (a, scoredStatsOf df a) ∈ (build_insights df yr m).areas ∧
    (scoredStatsOf df a).investment_score =
      0.4 * (scoredStatsOf df a).growth_score +
        0.4 * (scoredStatsOf df a).demand_score +
        0.2 * (scoredStatsOf df a).risk_score ∧
    (scoredStatsOf df a).growth_score =
      max 0 (min 10 (((scoredStatsOf df a).price_cagr + 0.05) / 0.20 * 10.0)) ∧
    (scoredStatsOf df a).demand_score =
      max 0 (min 10 (((scoredStatsOf df a).avg_demand : ℝ) /
        ((if maxQD ((areaNames df).map fun b =>
              mean ((demandSeries df b).map (fun p => p.2))) = 0 then 1
          else maxQD ((areaNames df).map fun b =>
              mean ((demandSeries df b).map (fun p => p.2)))) : ℚ) * 10.0)) ∧
    (scoredStatsOf df a).risk_score =
      10.0 - max 0 (min 10 ((scoredStatsOf df a).price_volatility /
        (if maxRD (volList df) = 0 then 1 else maxRD (volList df)) * 10.0)) ∧
    0 ≤ (scoredStatsOf df a).investment_score ∧
    (scoredStatsOf df a).investment_score ≤ 10 := by
  have hne : areaNames df ≠ [] := by
    intro hnil
    rw [hnil] at h
    cases h
  refine ⟨?_, rfl, rfl, rfl, rfl, ?_, ?_⟩
  · rw [(build_insights_parts df yr m hne).1]
    exact List.mem_map_of_mem _ h
  · show 0 ≤ investmentScoreOf df a
    rw [investmentScoreOf]
    have hg := clampScore_nonneg ((cagrOf df a + 0.05) / 0.20 * 10.0)
    have hd := clampScore_nonneg
      (((areaStatsOf df a).avg_demand : ℝ) / (maxAvgDemand df : ℝ) * 10.0)
    have hr10 := clampScore_le_ten
      (volatilityOf df a / maxVolatility df * 10.0)
    rw [growthScoreOf, demandScoreOf, riskScoreOf]
    nlinarith
  · show investmentScoreOf df a ≤ 10
    rw [investmentScoreOf]
    have hg := clampScore_le_ten ((cagrOf df a + 0.05) / 0.20 * 10.0)
    have hd := clampScore_le_ten
      (((areaStatsOf df a).avg_demand : ℝ) / (maxAvgDemand df : ℝ) * 10.0)
    have hr0 := clampScore_nonneg
      (volatilityOf df a / maxVolatility df * 10.0)
    rw [growthScoreOf, demandScoreOf, riskScoreOf]
    nlinarith

/-- C1 witness: the bound at a concrete one-row dataset. -/
theorem investment_score_bounds_witness :
    0 ≤ (scoredStatsOf [⟨"w", 2020, "c", 100, 5⟩] "w").investment_score :=
  (investment_score_bounds [⟨"w", 2020, "c", 100, 5⟩] none "price" "w"
    (by decide)).2.2.2.2.2.1

theorem getElem?_headD (pat : List Char) (h : pat ≠ []) :
    pat[0]? = some (pat.headD 'a') := by
  cases pat with
  | nil => exact absurd rfl h
  | cons c t => simp

theorem getElem?_lastD :
    ∀ (pat : List Char), pat ≠ [] → pat[pat.length - 1]? = some (lastD pat 'a')
  | [], h => absurd rfl h
  | [c], _ => rfl
  | a :: b :: t, _ => by
    have ih := getElem?_lastD (b :: t) (by simp)
    rw [lastD]
    have hlen : (a :: b :: t).length - 1 = (b :: t).length - 1 + 1 := by
      simp [List.length_cons]
    rw [hlen, List.getElem?_cons_succ]
    exact ih

theorem occursAt_getElem (pat cs : List Char) (i j : Nat)
    (h : occursAt pat cs i = true) (hj : j < pat.length) :
    cs[i + j]? = pat[j]? := by
  rw [occursAt] at h
  obtain ⟨t, ht⟩ := List.isPrefixOf_iff_prefix.mp h
  have h1 : (cs.drop i)[j]? = pat[j]? := by
    rw [← ht, List.getElem?_append_left hj]
  rw [← List.getElem?_drop, h1]

theorem wordAt_of_getElem {cs : List Char} {k : Nat} {c : Char}
    (h : cs[k]? = some c) : wordAt cs k = isWordChar c := by
  rw [wordAt, List.get?_eq_getElem?, h]

/-- C5: the exact phase of `extract_areas_from_message` is consulted
first and returned whenever non-empty (the fuzzy phase — whatever the
external close-match function does — runs only when it is empty); its
members are exactly the distinct dataset localities whose normalized form
occurs in the normalized text with a `\b` boundary on both sides; and a
locality (with word-character endpoints) every occurrence of which sits
strictly inside a longer word is never matched. -/
theorem extract_areas_exact_phase
    (closeMatches : String → List String → List String)
    (df : List Row) (message : String) :
    (exactPhase df message ≠ [] →
      extract_areas_from_message closeMatches df message = exactPhase df message) ∧
    (exactPhase df message = [] →
      extract_areas_from_message closeMatches df message =
        fuzzyPhase closeMatches df message) ∧
    (∀ loc : String, loc ∈ exactPhase df message ↔
      loc ∈ uniqueList (df.map (fun r => r.area)) ∧
      regexWordSearch (strTrim (strLower loc)).toList
        (strTrim (strLower message)).toList = true) ∧
    (∀ loc : String,
      (strTrim (strLower loc)).toList ≠ [] →
      isWordChar ((strTrim (strLower loc)).toList.headD 'a') = true →
      isWordChar (lastD (strTrim (strLower loc)).toList 'a') = true →
      (∀ i : Nat, occursAt (strTrim (strLower loc)).toList
          (strTrim (strLower message)).toList i = true →
        (0 < i ∧ wordAt (strTrim (strLower message)).toList (i - 1) = true) ∨
          wordAt (strTrim (strLower message)).toList
            (i + (strTrim (strLower loc)).toList.length) = true) →
      loc ∉ exactPhase df message) := by
  refine ⟨?_, ?_, ?_, ?_⟩
  · intro hne
    simp only [extract_areas_from_message]
    rw [if_pos hne]
  · intro hnil
    simp only [extract_areas_from_message]
    rw [hnil, if_neg (by simp)]
  · intro loc
    simp only [exactPhase]
    exact List.mem_filter
  · intro loc hpne hhead hlast honly hmem
    simp only [exactPhase] at hmem
    obtain ⟨-, hsearch⟩ := List.mem_filter.mp hmem
    rw [regexWordSearch, List.any_eq_true] at hsearch
    obtain ⟨i, -, hcond⟩ := hsearch
    rw [Bool.and_eq_true, Bool.and_eq_true] at hcond
    obtain ⟨⟨hocc, hb1⟩, hb2⟩ := hcond
    set pat := (strTrim (strLower loc)).toList with hpat
    set cs := (strTrim (strLower message)).toList with hcs
    have hplen : 0 < pat.length := List.length_pos.mpr hpne
    have hwi : wordAt cs i = true := by
      have hg : cs[i + 0]? = pat[0]? := occursAt_getElem pat cs i 0 hocc hplen
      rw [Nat.add_zero] at hg
      rw [getElem?_headD pat hpne] at hg
      rw [wordAt_of_getElem hg]
      exact hhead
    have hwlast : wordAt cs (i + (pat.length - 1)) = true := by
      have hg : cs[i + (pat.length - 1)]? = pat[pat.length - 1]? :=
        occursAt_getElem pat cs i (pat.length - 1) hocc (by omega)
      rw [getElem?_lastD pat hpne] at hg
      rw [wordAt_of_getElem hg]
      exact hlast
    have hwnext : wordAt cs (i + pat.length) = false := by
      have hk : i + pat.length = (i + (pat.length - 1)) + 1 := by omega
      rw [hk] at hb2
      simp only [boundaryAt] at hb2
      rw [← hk] at hb2
      rw [hwlast] at hb2
      cases hx : wordAt cs (i + pat.length)
      · rfl
      · rw [hx] at hb2
        simp at hb2
    rcases honly i hocc with ⟨hpos, hprev⟩ | hnext
    · obtain ⟨j, rfl⟩ : ∃ j, i = j + 1 := ⟨i - 1, by omega⟩
      simp only [boundaryAt] at hb1
      rw [hwi] at hb1
      have hj : wordAt cs (j + 1 - 1) = wordAt cs j := by norm_num
      rw [hj] at hprev
      rw [hprev] at hb1
      simp at hb1
    · rw [hwnext] at hnext
      cases hnext

example : extract_areas_from_message (fun _ _ => [])
    [⟨"Thane", 2020, "Mumbai", 1, 1⟩] "growth in thaneshwar" = [] := by decide

example : exactPhase [⟨"Thane", 2020, "Mumbai", 1, 1⟩] "growth in thane 2020" =
    ["Thane"] := by decide

/-- C5 witness: with an exact word-boundary match present, the extractor
returns the exact phase (and ignores the fuzzy oracle). -/
theorem extract_areas_exact_phase_witness :
    extract_areas_from_message (fun _ _ => [])
      [⟨"Wakad", 2020, "Pune", 1, 1⟩] "rates in wakad" = ["Wakad"] :=
  ((extract_areas_exact_phase (fun _ _ => [])
    [⟨"Wakad", 2020, "Pune", 1, 1⟩] "rates in wakad").1 (by decide)).trans
    (by decide)

theorem pair_sublist_cons {α : Type} {u v a : α} {l : List α} :
    List.Sublist [u, v] (a :: l) ↔
      (u = a ∧ List.Sublist [v] l) ∨ List.Sublist [u, v] l := by
  constructor
  · intro h
    cases h with
    | cons _ h => exact Or.inr h
    | cons₂ _ h => exact Or.inl ⟨rfl, h⟩
  · rintro (⟨rfl, h⟩ | h)
    · exact List.Sublist.cons₂ u h
    · exact List.Sublist.cons a h

theorem mem_insertDesc {x u : RankEntry} :
    ∀ {l : List RankEntry}, u ∈ insertDesc x l ↔ u = x ∨ u ∈ l := by
  intro l
  induction l with
  | nil => simp [insertDesc]
  | cons y ys ih =>
    rw [insertDesc]
    split
    · simp [List.mem_cons]
    · simp only [List.mem_cons, ih]
      tauto

theorem insertDesc_perm (x : RankEntry) (l : List RankEntry) :
    List.Perm (insertDesc x l) (x :: l) := by
  induction l with
  | nil => exact List.Perm.refl _
  | cons y ys ih =>
    rw [insertDesc]
    split
    · exact List.Perm.refl _
    · exact (ih.cons y).trans (List.Perm.swap x y ys)

theorem sortRanked_perm (l : List RankEntry) :
    List.Perm (sortRanked l) l := by
  induction l with
  | nil => exact List.Perm.refl _
  | cons x xs ih => exact (insertDesc_perm x (sortRanked xs)).trans (ih.cons x)

theorem insertDesc_pairwise {l : List RankEntry} (x : RankEntry)
    (h : l.Pairwise (fun p q => q.investment_score ≤ p.investment_score)) :
    (insertDesc x l).Pairwise
      (fun p q => q.investment_score ≤ p.investment_score) := by
  induction l with
  | nil => simp [insertDesc]
  | cons y ys ih =>
    rw [insertDesc]
    rcases List.pairwise_cons.mp h with ⟨hy, hys⟩
    split
    · rename_i hxy
      refine List.pairwise_cons.mpr ⟨?_, h⟩
      intro z hz
      rcases List.mem_cons.mp hz with rfl | hz
      · exact hxy
      · exact le_trans (hy z hz) hxy
    · rename_i hxy
      refine List.pairwise_cons.mpr ⟨?_, ih hys⟩
      intro z hz
      rcases mem_insertDesc.mp hz with rfl | hz
      · exact le_of_not_le hxy
      · exact hy z hz

theorem sortRanked_pairwise (l : List RankEntry) :
    (sortRanked l).Pairwise
      (fun p q => q.investment_score ≤ p.investment_score) := by
  induction l with
  | nil => simp [sortRanked]
  | cons x xs ih => exact insertDesc_pairwise x ih

theorem sub_insertDesc {x u v : RankEntry} :
    ∀ {l : List RankEntry}, List.Sublist [u, v] (insertDesc x l) →
      u ≠ x → v ≠ x → List.Sublist [u, v] l := by
  intro l
  induction l with
  | nil =>
    intro h hu _
    rw [insertDesc] at h
    have := h.length_le
    simp at this
  | cons y ys ih =>
    intro h hu hv
    rw [insertDesc] at h
    split at h
    · rcases pair_sublist_cons.mp h with ⟨rfl, _⟩ | h2
      · exact absurd rfl hu
      · exact h2
    · rcases pair_sublist_cons.mp h with ⟨rfl, h1⟩ | h2
      · have hvmem : v ∈ insertDesc x ys := List.singleton_sublist.mp h1
        rcases mem_insertDesc.mp hvmem with rfl | hvys
        · exact absurd rfl hv
        · exact List.Sublist.cons₂ u (List.singleton_sublist.mpr hvys)
      · exact List.Sublist.cons y (ih h2 hu hv)

theorem before_x_insertDesc {x u : RankEntry} :
    ∀ {l : List RankEntry}, List.Sublist [u, x] (insertDesc x l) →
      x ∉ l → u ≠ x → x.investment_score < u.investment_score := by
  intro l
  induction l with
  | nil =>
    intro h _ _
    rw [insertDesc] at h
    have := h.length_le
    simp at this
  | cons y ys ih =>
    intro h hx hu
    rw [insertDesc] at h
    split at h
    · rcases pair_sublist_cons.mp h with ⟨rfl, _⟩ | h2
      · exact absurd rfl hu
      · have : x ∈ y :: ys := h2.subset (by simp)
        exact absurd this hx
    · rename_i hxy
      rcases pair_sublist_cons.mp h with ⟨rfl, _⟩ | h2
      · exact lt_of_not_le hxy
      · exact ih h2 (fun hmem => hx (List.mem_cons_of_mem y hmem)) hu

theorem sortRanked_stable :
    ∀ (l : List RankEntry), l.Nodup → ∀ u v : RankEntry,
      List.Sublist [u, v] (sortRanked l) →
      u.investment_score = v.investment_score → List.Sublist [u, v] l := by
  intro l
  induction l with
  | nil =>
    intro _ u v h _
    rw [sortRanked] at h
    have := h.length_le
    simp at this
  | cons a as ih =>
    intro hnd u v h heq
    rcases List.nodup_cons.mp hnd with ⟨hna, hnas⟩
    rw [sortRanked] at h
    have hsortnd : (insertDesc a (sortRanked as)).Nodup := by
      refine ((insertDesc_perm a (sortRanked as)).trans
        ((sortRanked_perm as).cons a)).nodup_iff.mpr ?_
      exact List.nodup_cons.mpr ⟨hna, hnas⟩
    by_cases hu : u = a
    · by_cases hv : v = u
      · rw [hv] at h
        have hdup : ([u, u] : List RankEntry).Nodup := h.nodup hsortnd
        simp at hdup
      · have hvmem : v ∈ insertDesc a (sortRanked as) := h.subset (by simp)
        rcases mem_insertDesc.mp hvmem with hva | hvs
        · exact absurd (hva.trans hu.symm) hv
        · have hvas : v ∈ as := (sortRanked_perm as).mem_iff.mp hvs
          rw [hu]
          exact List.Sublist.cons₂ a (List.singleton_sublist.mpr hvas)
    · by_cases hv : v = a
      · rw [hv] at h heq
        have hnin : a ∉ sortRanked as := by
          intro hmem
          exact hna ((sortRanked_perm as).mem_iff.mp hmem)
        have hlt := before_x_insertDesc h hnin hu
        rw [heq] at hlt
        exact absurd hlt (lt_irrefl _)
      · have h2 := sub_insertDesc h hu hv
        exact List.Sublist.cons a (ih hnas u v h2 heq)

theorem preRanked_nodup (df : List Row) : (preRanked df).Nodup := by
  rw [preRanked]
  refine List.Nodup.map_on ?_ (sortAsc_nodup (nodup_uniqueList _))
  intro x _ y _ heq
  exact congrArg RankEntry.area heq

/-- C2: `ranked_areas` consists of one entry per locality whose stored
score is the one-decimal rounding of the full-precision investment score
kept in the per-locality stats record; the list is sorted descending on
the stored scores, and entries with equal stored scores keep the order of
the statistics batch (the pre-sort `ranked` list), i.e. Python's stable
sort order. -/
theorem ranked_areas_sorted (df : List Row) (yr : Option (Int × Int))
    (m : String) :
    List.Pairwise
      (fun p q : RankEntry => q.investment_score ≤ p.investment_score)
      (build_insights df yr m).ranked_areas ∧
    List.Perm (build_insights df yr m).ranked_areas (preRanked df) ∧
    (∀ u v : RankEntry,
      List.Sublist [u, v] (build_insights df yr m).ranked_areas →
      u.investment_score = v.investment_score →
      List.Sublist [u, v] (preRanked df)) ∧
    (∀ a, a ∈ areaNames df →
      ({ area := a,
         investment_score := rnd1 ((scoredStatsOf df a).investment_score) } :
          RankEntry) ∈ (build_insights df yr m).ranked_areas ∧
      (a, scoredStatsOf df a) ∈ (build_insights df yr m).areas ∧
      (scoredStatsOf df a).investment_score = investmentScoreOf df a) := by
  by_cases hne : areaNames df = []
  · have hb : (build_insights df yr m).ranked_areas = [] := by
      unfold build_insights
      split
      · rfl
      · rename_i heq
        rw [hne] at heq
        cases heq
    have hp : preRanked df = [] := by
      rw [preRanked, hne]
      rfl
    rw [hb, hp]
    refine ⟨by simp, List.Perm.refl _, ?_, ?_⟩
    · intro u v h _
      have := h.length_le
      simp at this
    · intro a ha
      rw [hne] at ha
      cases ha
  · obtain ⟨hareas, hranked⟩ := build_insights_parts df yr m hne
    rw [hareas, hranked]
    refine ⟨sortRanked_pairwise _, sortRanked_perm _, ?_, ?_⟩
    · intro u v h heq
      exact sortRanked_stable (preRanked df) (preRanked_nodup df) u v h heq
    · intro a ha
      refine ⟨?_, List.mem_map_of_mem _ ha, rfl⟩
      refine (sortRanked_perm (preRanked df)).mem_iff.mpr ?_
      rw [preRanked]
      exact List.mem_map_of_mem _ ha

/-- C2 witness: the ranking entry of a one-locality batch carries the
rounded full-precision score and is listed. -/
theorem ranked_areas_sorted_witness :
    ({ area := "w",
       investment_score :=
         rnd1 ((scoredStatsOf [⟨"w", 2020, "c", 100, 5⟩] "w").investment_score) } :
        RankEntry) ∈
      (build_insights [⟨"w", 2020, "c", 100, 5⟩] none "price").ranked_areas :=
  ((ranked_areas_sorted [⟨"w", 2020, "c", 100, 5⟩] none "price").2.2.2 "w"
    (by decide)).1

end RealEstate
